import Mathlib

/-!
# Verification of the MaRS sensor-fusion core

Shallow embedding of the rotation-math kernel (`mars::Utils`), the
timestamped buffer record (`mars::BufferEntryType`) and the position
measurement payload (`mars::PositionMeasurementType`), together with
theorems settling the specified properties.

Machine `double` scalars are modelled as exact rationals (`ℚ`); C++ `int`
values are modelled as `Int`.
-/

namespace Mars

/-! ## Utils::VecExtractEveryNthElm (utils.h)

The C++ template loops `for (int k = 0; k < len - nth; k += nth)` pushing
`data[k]`.  The loop is embedded with an explicit iteration budget (`fuel`);
`data.length` iterations always suffice for the strides `nth ≥ 1` the
callers use, and an out-of-range read (impossible along those runs) is
modelled as skipping the element. -/

/-- One iteration budget step of the `VecExtractEveryNthElm` loop:
`if (k < len - nth) { push data[k]; k += nth; continue } else stop`. -/
def vecExtractEveryNthElmAux {α : Type} (data : List α) (nth : Int) : Int → Nat → List α
  | _, 0 => []
  | k, Nat.succ fuel =>
    if k < (data.length : Int) - nth then
      match data[k.toNat]? with
      | some x => x :: vecExtractEveryNthElmAux data nth (k + nth) fuel
      | none => vecExtractEveryNthElmAux data nth (k + nth) fuel
    else []

/-- `Utils::VecExtractEveryNthElm(data, nth)`: run the loop from `k = 0`. -/
def vecExtractEveryNthElm {α : Type} (data : List α) (nth : Int) : List α :=
  vecExtractEveryNthElmAux data nth 0 data.length

example : vecExtractEveryNthElm (List.range 10) 1 = [0, 1, 2, 3, 4, 5, 6, 7, 8] := by decide
example : vecExtractEveryNthElm [1, 2, 3] (3 : Int) = [] := by decide
example : vecExtractEveryNthElm [1, 2, 3] (4 : Int) = [] := by decide

/-- Loop characterization: starting at offset `k` with enough fuel, the
`j`-th collected element is the element at index `k + j·nth`, present
exactly when that index stays strictly below `length - nth`. -/
theorem vecExtractEveryNthElmAux_getElem {α : Type} (data : List α) (nth : Int)
    (h1 : 1 ≤ nth) :
    ∀ (fuel : Nat) (k : Int) (j : Nat), 0 ≤ k →
      (data.length : Int) ≤ k + fuel * nth →
      (vecExtractEveryNthElmAux data nth k fuel)[j]? =
        if k + j * nth < (data.length : Int) - nth then data[(k + j * nth).toNat]? else none := by
  intro fuel
  induction fuel with
  | zero =>
    intro k j hk hf
    simp only [vecExtractEveryNthElmAux, List.getElem?_nil]
    rw [if_neg]
    have hj : (0 : Int) ≤ j * nth := by positivity
    simp only [Nat.cast_zero, zero_mul, add_zero] at hf
    omega
  | succ fuel ih =>
    intro k j hk hf
    simp only [vecExtractEveryNthElmAux]
    by_cases hcond : k < (data.length : Int) - nth
    · rw [if_pos hcond]
      have hklen : k.toNat < data.length := by omega
      obtain ⟨x, hx⟩ : ∃ x, data[k.toNat]? = some x :=
        ⟨data[k.toNat], List.getElem?_eq_getElem hklen⟩
      rw [hx]
      cases j with
      | zero =>
        simp only [Nat.cast_zero, zero_mul, add_zero, List.getElem?_cons_zero]
        rw [if_pos hcond, hx]
      | succ j =>
        simp only [List.getElem?_cons_succ]
        rw [ih (k + nth) j (by omega) (by push_cast at hf; linarith)]
        have harith : k + nth + j * nth = k + (j + 1 : Nat) * nth := by push_cast; ring
        rw [harith]
    · rw [if_neg hcond]
      simp only [List.getElem?_nil]
      rw [if_neg]
      have hj : (0 : Int) ≤ j * nth := by positivity
      omega

/-- Full-run characterization: for stride `nth ≥ 1`, the `j`-th element of
`VecExtractEveryNthElm(data, nth)` is the element of `data` at index
`j·nth`, present exactly when `j·nth < length data - nth`. -/
theorem vecExtractEveryNthElm_getElem {α : Type} (data : List α) (nth : Int)
    (h1 : 1 ≤ nth) (j : Nat) :
    (vecExtractEveryNthElm data nth)[j]? =
      if (j : Int) * nth < (data.length : Int) - nth then data[((j : Int) * nth).toNat]?
      else none := by
  have h0 : (0 : Int) ≤ (data.length : Int) := Int.natCast_nonneg _
  have hf : (data.length : Int) ≤ 0 + (data.length : Nat) * nth := by nlinarith
  have := vecExtractEveryNthElmAux_getElem data nth h1 data.length 0 j le_rfl hf
  simpa [vecExtractEveryNthElm] using this

/-- C1: for every vector `data` and stride `nth ≥ 1`, `VecExtractEveryNthElm`
returns exactly the elements of `data` at indices `0, nth, 2·nth, …`
restricted to indices strictly below `length data − nth` (the `j`-th output
element is the element at index `j·nth`, present precisely when
`j·nth < length data − nth`, so no element of the final `nth`-sized tail
window appears); in particular on a 10-element input with `nth = 3` it
returns exactly the three elements at indices 0, 3 and 6. -/
theorem vecExtractEveryNthElm_spec {α : Type} (data : List α) (nth : Int) (h1 : 1 ≤ nth) :
    (∀ j : Nat, (vecExtractEveryNthElm data nth)[j]? =
        if (j : Int) * nth < (data.length : Int) - nth then data[((j : Int) * nth).toNat]?
        else none)
    ∧ vecExtractEveryNthElm (List.range 10) 3 = [0, 3, 6] :=
  ⟨vecExtractEveryNthElm_getElem data nth h1, by decide⟩

/-- C1 witness: the characterization applied to the 10-element example. -/
theorem vecExtractEveryNthElm_spec_witness :
    vecExtractEveryNthElm (List.range 10) 3 = [0, 3, 6] :=
  (vecExtractEveryNthElm_spec (List.range 10) 3 (by decide)).2

/-- C9: for stride `nth ≥ 1`: if `length data ≤ nth` the result is empty
(even index 0 is excluded); with `nth = 1` the result is `data` with the
last element removed; for non-empty `data` the result is never all of
`data`. -/
theorem vecExtractEveryNthElm_boundary {α : Type} (data : List α) (nth : Int) (h1 : 1 ≤ nth) :
    ((data.length : Int) ≤ nth → vecExtractEveryNthElm data nth = [])
    ∧ (nth = 1 → vecExtractEveryNthElm data nth = data.dropLast)
    ∧ (data ≠ [] → vecExtractEveryNthElm data nth ≠ data) := by
  refine ⟨?_, ?_, ?_⟩
  · intro hle
    apply List.ext_getElem?
    intro n
    rw [vecExtractEveryNthElm_getElem data nth h1 n, List.getElem?_nil, if_neg]
    have hn : (0 : Int) ≤ (n : Int) * nth := by positivity
    omega
  · intro hnth
    subst hnth
    apply List.ext_getElem?
    intro n
    rw [vecExtractEveryNthElm_getElem data 1 le_rfl n, List.dropLast_eq_take,
      List.getElem?_take]
    rcases Nat.lt_or_ge n (data.length - 1) with hn | hn
    · rw [if_pos (by omega), if_pos hn]
      congr 1
      omega
    · rw [if_neg (by omega), if_neg (by omega)]
  · intro hne heq
    have hlen : 0 < data.length := List.length_pos.mpr hne
    have hchar := vecExtractEveryNthElm_getElem data nth h1 (data.length - 1)
    rw [heq, if_neg] at hchar
    · rw [List.getElem?_eq_getElem (by omega)] at hchar
      exact Option.noConfusion hchar
    · have hcast : ((data.length - 1 : Nat) : Int) = (data.length : Int) - 1 := by omega
      rw [hcast, not_lt]
      have hl1 : (1 : Int) ≤ (data.length : Int) := by exact_mod_cast hlen
      nlinarith

/-- C9 witness: boundary behavior on concrete two-element inputs. -/
theorem vecExtractEveryNthElm_boundary_witness :
    vecExtractEveryNthElm [5, 7] (2 : Int) = ([] : List Nat)
    ∧ vecExtractEveryNthElm [5, 7] (1 : Int) = [5]
    ∧ vecExtractEveryNthElm [5, 7] (2 : Int) ≠ [5, 7] := by
  refine ⟨?_, ?_, ?_⟩
  · exact (vecExtractEveryNthElm_boundary [5, 7] 2 (by decide)).1 (by decide)
  · exact ((vecExtractEveryNthElm_boundary [5, 7] 1 (by decide)).2.1 rfl).trans (by decide)
  · exact (vecExtractEveryNthElm_boundary [5, 7] 2 (by decide)).2.2 (by decide)

/-! ## BufferEntryType (buffer_entry_type.cpp) -/

namespace BufferMetadataType

/-- Modelled from the spec: the `BufferMetadataType` enumeration (its header
is not among the sampled sources); “an enumeration with five defined
values”, here given distinct integer codes.  `BufferEntryType` stores the
tag as a plain `int`, so values outside the enumeration are representable. -/
def core_state : Int := 0

/-- Modelled from the spec: see `core_state`. -/
def sensor_state : Int := 1

/-- Modelled from the spec: see `core_state`. -/
def init_state : Int := 2

/-- Modelled from the spec: see `core_state`. -/
def measurement : Int := 3

/-- Modelled from the spec: see `core_state`. -/
def measurement_ooo : Int := 4

end BufferMetadataType

/-- Modelled from the spec: `mars::Time` (its header is not among the
sampled sources) — “a totally ordered scalar time value (e.g. seconds as a
high-precision real number)”, modelled as an exact rational. -/
abbrev Time : Type := ℚ

/-- `mars::BufferEntryType`: timestamp, payload, shared sensor reference,
integer metadata tag and the two classification filter sets that the
constructor fills.  `P` stands for the payload type (`BufferDataType`) and
`S` for the shared sensor handle (`std::shared_ptr<SensorAbsClass>`), both
opaque to the operations verified here. -/
structure BufferEntryType (P S : Type) where
  timestamp_ : Time
  data_ : P
  sensor_ : S
  metadata_ : Int
  metadata_state_filter_ : Finset Int
  metadata_measurement_filter_ : Finset Int

/-- The `BufferEntryType` constructor (buffer_entry_type.cpp, lines 18-27):
stores the four arguments and fills `metadata_state_filter_` with
`{core_state, sensor_state, init_state}` and `metadata_measurement_filter_`
with `{measurement, measurement_ooo}`. -/
def BufferEntryType.construct {P S : Type} (timestamp : Time) (data : P) (sensor : S)
    (metadata : Int) : BufferEntryType P S :=
  { timestamp_ := timestamp
    data_ := data
    sensor_ := sensor
    metadata_ := metadata
    metadata_state_filter_ :=
      {BufferMetadataType.core_state, BufferMetadataType.sensor_state,
        BufferMetadataType.init_state}
    metadata_measurement_filter_ :=
      {BufferMetadataType.measurement, BufferMetadataType.measurement_ooo} }

/-- `BufferEntryType::IsState`: membership of the tag in the state filter. -/
def BufferEntryType.IsState {P S : Type} (e : BufferEntryType P S) : Bool :=
  decide (e.metadata_ ∈ e.metadata_state_filter_)

/-- `BufferEntryType::IsMeasurement`: membership of the tag in the
measurement filter. -/
def BufferEntryType.IsMeasurement {P S : Type} (e : BufferEntryType P S) : Bool :=
  decide (e.metadata_ ∈ e.metadata_measurement_filter_)

/-- `BufferEntryType::operator<`: `timestamp_ < rhs.timestamp_`. -/
def BufferEntryType.lt {P S : Type} (e rhs : BufferEntryType P S) : Bool :=
  decide (e.timestamp_ < rhs.timestamp_)

/-- `BufferEntryType::operator<=`: `timestamp_ <= rhs.timestamp_`. -/
def BufferEntryType.le {P S : Type} (e rhs : BufferEntryType P S) : Bool :=
  decide (e.timestamp_ ≤ rhs.timestamp_)

/-- `BufferEntryType::operator>`: `timestamp_ > rhs.timestamp_`. -/
def BufferEntryType.gt {P S : Type} (e rhs : BufferEntryType P S) : Bool :=
  decide (e.timestamp_ > rhs.timestamp_)

/-- `BufferEntryType::operator>=`: `timestamp_ >= rhs.timestamp_`. -/
def BufferEntryType.ge {P S : Type} (e rhs : BufferEntryType P S) : Bool :=
  decide (e.timestamp_ ≥ rhs.timestamp_)

/-- C2: an entry constructed with metadata `m` has `IsState` true exactly
for the three state tags, `IsMeasurement` true exactly for the two
measurement tags, and for any `m` outside the five defined tags both
classifications are false. -/
theorem bufferEntry_classification {P S : Type} (ts : Time) (d : P) (s : S) (m : Int) :
    ((BufferEntryType.construct ts d s m).IsState = true ↔
      (m = BufferMetadataType.core_state ∨ m = BufferMetadataType.sensor_state ∨
        m = BufferMetadataType.init_state))
    ∧ ((BufferEntryType.construct ts d s m).IsMeasurement = true ↔
      (m = BufferMetadataType.measurement ∨ m = BufferMetadataType.measurement_ooo))
    ∧ (¬(m = BufferMetadataType.core_state ∨ m = BufferMetadataType.sensor_state ∨
          m = BufferMetadataType.init_state ∨ m = BufferMetadataType.measurement ∨
          m = BufferMetadataType.measurement_ooo) →
        (BufferEntryType.construct ts d s m).IsState = false
        ∧ (BufferEntryType.construct ts d s m).IsMeasurement = false) := by
  refine ⟨?_, ?_, ?_⟩
  · simp [BufferEntryType.IsState, BufferEntryType.construct]
  · simp [BufferEntryType.IsMeasurement, BufferEntryType.construct]
  · intro hm
    push_neg at hm
    constructor
    · simp only [BufferEntryType.IsState, BufferEntryType.construct, decide_eq_false_iff_not,
        Finset.mem_insert, Finset.mem_singleton]
      tauto
    · simp only [BufferEntryType.IsMeasurement, BufferEntryType.construct,
        decide_eq_false_iff_not, Finset.mem_insert, Finset.mem_singleton]
      tauto

/-- C2 witness: an out-of-range tag (99) is classified as neither state nor
measurement. -/
theorem bufferEntry_classification_witness :
    (BufferEntryType.construct 0 () () 99).IsState = false
    ∧ (BufferEntryType.construct 0 () () 99).IsMeasurement = false :=
  (bufferEntry_classification 0 () () 99).2.2 (by decide)

/-- C3: all four comparison operators are decided by the timestamps alone:
`<` is timestamp `<`, `<=` is timestamp `≤`, `>` and `>=` are the flipped
comparisons; with equal timestamps neither `<` nor `>` holds while `<=` and
`>=` both hold; and replacing either operand by any entry with the same
timestamp (but arbitrary payload, sensor and metadata) never changes any
comparison result. -/
theorem bufferEntry_ordering {P S : Type} (e1 e2 : BufferEntryType P S) :
    (e1.lt e2 = true ↔ e1.timestamp_ < e2.timestamp_)
    ∧ (e1.le e2 = true ↔ e1.timestamp_ ≤ e2.timestamp_)
    ∧ (e1.gt e2 = true ↔ e2.timestamp_ < e1.timestamp_)
    ∧ (e1.ge e2 = true ↔ e2.timestamp_ ≤ e1.timestamp_)
    ∧ (e1.timestamp_ = e2.timestamp_ →
        e1.lt e2 = false ∧ e1.gt e2 = false ∧ e1.le e2 = true ∧ e1.ge e2 = true)
    ∧ (∀ f1 f2 : BufferEntryType P S, e1.timestamp_ = f1.timestamp_ →
        e2.timestamp_ = f2.timestamp_ →
        e1.lt e2 = f1.lt f2 ∧ e1.le e2 = f1.le f2 ∧ e1.gt e2 = f1.gt f2
          ∧ e1.ge e2 = f1.ge f2) := by
  refine ⟨by simp [BufferEntryType.lt], by simp [BufferEntryType.le],
    by simp [BufferEntryType.gt], by simp [BufferEntryType.ge], ?_, ?_⟩
  · intro h
    simp [BufferEntryType.lt, BufferEntryType.gt, BufferEntryType.le, BufferEntryType.ge, h]
  · intro f1 f2 h1 h2
    simp [BufferEntryType.lt, BufferEntryType.gt, BufferEntryType.le, BufferEntryType.ge,
      h1, h2]

/-- C3 witness: two concrete entries with equal timestamps but different
metadata compare as neither `<` nor `>`, and both `<=` and `>=`. -/
theorem bufferEntry_ordering_witness :
    (BufferEntryType.construct (1 : ℚ) () () BufferMetadataType.core_state).lt
      (BufferEntryType.construct (1 : ℚ) () () BufferMetadataType.measurement) = false
    ∧ (BufferEntryType.construct (1 : ℚ) () () BufferMetadataType.core_state).le
      (BufferEntryType.construct (1 : ℚ) () () BufferMetadataType.measurement) = true := by
  have h := (bufferEntry_ordering
    (BufferEntryType.construct (1 : ℚ) () () BufferMetadataType.core_state)
    (BufferEntryType.construct (1 : ℚ) () () BufferMetadataType.measurement)).2.2.2.2.1 rfl
  exact ⟨h.1, h.2.2.1⟩

/-! ## PositionMeasurementType (position_measurement_type.h) -/

/-- `mars::PositionMeasurementType`: the position payload, holding the
measured `[x y z]` position.  Its base class `BaseMeas` (not among the
sampled sources) contributes no data relevant here. -/
structure PositionMeasurementType where
  position_ : Fin 3 → ℚ

/-- The `PositionMeasurementType(Eigen::Vector3d position)` constructor:
moves the argument into `position_`. -/
def PositionMeasurementType.construct (position : Fin 3 → ℚ) : PositionMeasurementType :=
  { position_ := position }

/-- C10: constructing a `PositionMeasurementType` from a 3-vector stores
that vector unchanged in `position_`, and the constructed object carries no
state beyond `position_` (any object with the same `position_` equals it). -/
theorem positionMeasurement_construct (p : Fin 3 → ℚ) :
    (PositionMeasurementType.construct p).position_ = p
    ∧ ∀ q : PositionMeasurementType, q.position_ = p →
        q = PositionMeasurementType.construct p := by
  refine ⟨rfl, ?_⟩
  rintro ⟨q⟩ h
  simpa [PositionMeasurementType.construct] using h

/-- C10 witness: the constructor applied to a concrete vector. -/
theorem positionMeasurement_construct_witness :
    (PositionMeasurementType.construct ![1, 2, 3]).position_ = ![1, 2, 3]
    ∧ PositionMeasurementType.mk ![1, 2, 3] = PositionMeasurementType.construct ![1, 2, 3] :=
  ⟨(positionMeasurement_construct ![1, 2, 3]).1,
    (positionMeasurement_construct ![1, 2, 3]).2 ⟨![1, 2, 3]⟩ rfl⟩

/-! ## Utils::EnforceMatrixSymmetry and Utils::Skew -/

/-- Modelled from the spec: `Utils::EnforceMatrixSymmetry` (only its
declaration is among the sampled sources): “Returns `(M + Mᵗ) / 2`.” -/
def EnforceMatrixSymmetry {n : ℕ} (mat_in : Matrix (Fin n) (Fin n) ℚ) :
    Matrix (Fin n) (Fin n) ℚ :=
  ((1 : ℚ) / 2) • (mat_in + mat_in.transpose)

/-- C6: `EnforceMatrixSymmetry(M)` equals `(M + Mᵗ)/2`, is idempotent, and
leaves every already-symmetric matrix unchanged. -/
theorem enforceMatrixSymmetry_spec {n : ℕ} (M : Matrix (Fin n) (Fin n) ℚ) :
    EnforceMatrixSymmetry M = ((1 : ℚ) / 2) • (M + M.transpose)
    ∧ EnforceMatrixSymmetry (EnforceMatrixSymmetry M) = EnforceMatrixSymmetry M
    ∧ (M.transpose = M → EnforceMatrixSymmetry M = M) := by
  refine ⟨rfl, ?_, ?_⟩
  · ext i j
    simp only [EnforceMatrixSymmetry, Matrix.smul_apply, Matrix.add_apply,
      Matrix.transpose_apply, smul_eq_mul]
    ring
  · intro h
    ext i j
    have h' := congrFun (congrFun h j) i
    rw [Matrix.transpose_apply] at h'
    simp only [EnforceMatrixSymmetry, Matrix.smul_apply, Matrix.add_apply,
      Matrix.transpose_apply, smul_eq_mul, h']
    ring

/-- C6 witness: the map fixes a concrete symmetric matrix and is idempotent
on a concrete asymmetric one. -/
theorem enforceMatrixSymmetry_spec_witness :
    EnforceMatrixSymmetry !![(1 : ℚ), 2; 2, 5] = !![(1 : ℚ), 2; 2, 5]
    ∧ EnforceMatrixSymmetry (EnforceMatrixSymmetry !![(0 : ℚ), 4; 0, 0]) =
        EnforceMatrixSymmetry !![(0 : ℚ), 4; 0, 0] :=
  ⟨(enforceMatrixSymmetry_spec !![(1 : ℚ), 2; 2, 5]).2.2 (by decide),
    (enforceMatrixSymmetry_spec !![(0 : ℚ), 4; 0, 0]).2.1⟩

/-- Modelled from the spec: `Utils::Skew` (only its declaration is among the
sampled sources): the skew-symmetric cross-product matrix of a 3-vector. -/
def Skew (v : Fin 3 → ℚ) : Matrix (Fin 3) (Fin 3) ℚ :=
  !![0, -v 2, v 1; v 2, 0, -v 0; -v 1, v 0, 0]

/-- C7: `Skew(v)` is antisymmetric (it equals the negation of its
transpose) and acts on any 3-vector `w` as the cross product `v × w`. -/
theorem skew_spec (v w : Fin 3 → ℚ) :
    Skew v = -(Skew v).transpose ∧ (Skew v).mulVec w = crossProduct v w := by
  constructor
  · ext i j
    simp only [Matrix.neg_apply, Matrix.transpose_apply]
    fin_cases i <;> fin_cases j <;> simp [Skew]
  · ext i
    fin_cases i <;>
      simp [Skew, Matrix.mulVec, Matrix.dotProduct, Fin.sum_univ_three, cross_apply] <;>
      ring

/-! ## Utils::CheckCov

Only the declaration of `CheckCov` is among the sampled sources; the checks
are modelled from the spec over exact rationals, with the covariance given
as a list of rows and the diagnostic side effect modelled as a returned
list of messages. -/

/-- Remove the entry at position `n` from a list. -/
def removeNth {α : Type} (l : List α) (n : Nat) : List α :=
  l.take n ++ l.drop (n + 1)

/-- Laplace expansion along the first row, recursing on the row count `n`
(always called with `n` the length of the matrix, so the `0, _ :: _` arm is
never reached). -/
def detListAux : Nat → List (List ℚ) → ℚ
  | _, [] => 1
  | 0, _ :: _ => 1
  | n + 1, r :: rest =>
    ((List.range r.length).map fun j =>
      (if j % 2 = 0 then (1 : ℚ) else -1) * r.getD j 0 *
        detListAux n (rest.map fun row => removeNth row j)).sum

/-- Determinant of a square rational matrix given as a list of rows. -/
def detList (m : List (List ℚ)) : ℚ :=
  detListAux m.length m

/-- Transpose of a square matrix given as a list of rows. -/
def matTransposeL (m : List (List ℚ)) : List (List ℚ) :=
  (List.range m.length).map fun j => m.map fun row => row.getD j 0

/-- Principal submatrix of `m` keeping the rows and columns listed in
`idx`. -/
def principalSub (m : List (List ℚ)) (idx : List Nat) : List (List ℚ) :=
  idx.map fun i => idx.map fun j => (m.getD i []).getD j 0

/-- All principal minors of `m` are non-negative — for a symmetric matrix
this is the classical criterion for positive semi-definiteness
(non-negative eigenvalues). -/
def principalMinorsNonneg (m : List (List ℚ)) : Bool :=
  (List.range m.length).sublists.all fun idx => decide (0 ≤ detList (principalSub m idx))

/-- Modelled from the spec: `Utils::CheckCov` (only its declaration is among
the sampled sources).  Validates that the covariance is symmetric and
positive semi-definite and, when `check_cond` is set, that the condition
number is acceptable (over exact rationals: the matrix is non-singular, a
singular covariance having an unbounded condition number).  It returns the
validity flag together with the diagnostic messages, each tagging the
caller-supplied `description`; as a pure total function it cannot raise or
mutate its input. -/
def CheckCov (cov_mat : List (List ℚ)) (description : String) (check_cond : Bool) :
    Bool × List String :=
  let sym_ok := decide (matTransposeL cov_mat = cov_mat)
  let psd_ok := principalMinorsNonneg cov_mat
  let cond_ok := !check_cond || decide (detList cov_mat ≠ 0)
  ((sym_ok && psd_ok) && cond_ok,
    (if sym_ok then [] else [description ++ " - is not symmetric"]) ++
      ((if psd_ok then [] else [description ++ " - is not positive semi-definite"]) ++
        (if cond_ok then [] else [description ++ " - is ill-conditioned"])))

set_option maxHeartbeats 2000000 in
/-- C5: `CheckCov` returns a boolean validity flag; whenever the flag is
false at least one diagnostic message is emitted and every emitted message
names the caller-supplied `description`; when the flag is true no
diagnostic is emitted; and on the 3×3 identity matrix (default
`check_cond = false`) it returns true with no diagnostic.  As a pure total
function the model can neither raise nor mutate its input. -/
theorem checkCov_spec (cov : List (List ℚ)) (desc : String) (cc : Bool) :
    ((CheckCov cov desc cc).1 = false → (CheckCov cov desc cc).2 ≠ [])
    ∧ (∀ msg ∈ (CheckCov cov desc cc).2, ∃ t, msg = desc ++ t)
    ∧ ((CheckCov cov desc cc).1 = true → (CheckCov cov desc cc).2 = [])
    ∧ CheckCov [[1, 0, 0], [0, 1, 0], [0, 0, 1]] desc false = (true, []) := by
  refine ⟨?_, ?_, ?_, ?_⟩
  · intro hfalse
    rcases hs : decide (matTransposeL cov = cov) with _ | _ <;>
      rcases hp : principalMinorsNonneg cov with _ | _ <;>
        rcases hc : (!cc || decide (detList cov ≠ 0)) with _ | _ <;>
          simp_all [CheckCov]
  · intro msg hmsg
    simp only [CheckCov, List.mem_append] at hmsg
    rcases hmsg with h | h | h <;>
      (split at h
       · simp at h
       · simp only [List.mem_singleton] at h
         exact ⟨_, h⟩)
  · intro htrue
    rcases hs : decide (matTransposeL cov = cov) with _ | _ <;>
      rcases hp : principalMinorsNonneg cov with _ | _ <;>
        rcases hc : (!cc || decide (detList cov ≠ 0)) with _ | _ <;>
          simp_all [CheckCov]
  · norm_num [CheckCov, principalMinorsNonneg, detList, detListAux, principalSub,
      matTransposeL, removeNth, List.range_succ, List.sublists, List.all_cons]

/-- C5 witness: a failed check emits a diagnostic, and the 3×3 identity
passes silently. -/
theorem checkCov_spec_witness :
    (CheckCov [[0, 1], [0, 0]] "position_cov" false).2 ≠ []
    ∧ CheckCov [[1, 0, 0], [0, 1, 0], [0, 0, 1]] "position_cov" false = (true, []) :=
  ⟨(checkCov_spec [[0, 1], [0, 0]] "position_cov" false).1
      (by norm_num [CheckCov, principalMinorsNonneg, detList, detListAux, principalSub,
        matTransposeL, removeNth, List.range_succ, List.sublists, List.all_cons]),
    (checkCov_spec [[1, 0, 0], [0, 1, 0], [0, 0, 1]] "position_cov" false).2.2.2⟩

/-! ## Utils::quaternionAverage, Utils::MatExp, Utils::TransformImu

Only the declarations of these three operations are among the sampled
sources; the operations are modelled from the spec, with exact rational
scalars, and the spec's error-handling policy (§7) gives each degenerate
call an error result. -/

/-- A quaternion with exact rational components (`Eigen::Quaterniond`,
`w` being the scalar part). -/
structure QuatQ where
  w : ℚ
  x : ℚ
  y : ℚ
  z : ℚ

/-- Hamilton product of two quaternions. -/
def QuatQ.hmul (a b : QuatQ) : QuatQ :=
  { w := a.w * b.w - a.x * b.x - a.y * b.y - a.z * b.z
    x := a.w * b.x + a.x * b.w + a.y * b.z - a.z * b.y
    y := a.w * b.y - a.x * b.z + a.y * b.w + a.z * b.x
    z := a.w * b.z + a.x * b.y - a.y * b.x + a.z * b.w }

/-- Quaternion conjugate. -/
def QuatQ.conj (a : QuatQ) : QuatQ :=
  { w := a.w, x := -a.x, y := -a.y, z := -a.z }

/-- Rotation of a 3-vector by a unit quaternion: the vector part of
`q ⊗ (0, v) ⊗ q*`. -/
def QuatQ.rotate (q : QuatQ) (v : Fin 3 → ℚ) : Fin 3 → ℚ :=
  let p := (q.hmul { w := 0, x := v 0, y := v 1, z := v 2 }).hmul q.conj
  ![p.x, p.y, p.z]

/-- Component 4-vector of a quaternion, used by the Markley accumulator. -/
def QuatQ.toVec4 (q : QuatQ) : Fin 4 → ℚ := ![q.w, q.x, q.y, q.z]

/-- Modelled from the spec: `mars::IMUMeasurementType` (its header is not
among the sampled sources) — an inertial payload carrying the angular
velocity and linear acceleration 3-vectors consumed by `TransformImu`. -/
structure IMUMeasurementType where
  angular_velocity_ : Fin 3 → ℚ
  linear_acceleration_ : Fin 3 → ℚ

/-- Modelled from the spec: `Utils::quaternionAverage` (only its declaration
is among the sampled sources).  The Markley et al. mean of a non-empty
collection of unit quaternions accumulates the outer-product matrix
`Σ qᵢ qᵢᵗ` and returns its principal (sign-normalized) eigenvector; an
empty input is an error condition.  The error path is modelled exactly; the
happy path returns the accumulator `Σ qᵢ qᵢᵗ`, which determines the mean —
the principal eigenvector itself is a real-algebraic quantity with no exact
rational form, so the final eigen-extraction stays outside the rational
model. -/
def quaternionAverage (quats : List QuatQ) : Except String (Matrix (Fin 4) (Fin 4) ℚ) :=
  match quats with
  | [] => Except.error "quaternionAverage - empty input"
  | _ :: _ =>
    Except.ok ((quats.map fun q => Matrix.of fun i j => q.toVec4 i * q.toVec4 j).sum)

/-- Modelled from the spec: `Utils::MatExp` (only its declaration is among
the sampled sources): the Taylor series of the matrix exponential of a 4×4
matrix, `Σ_{k ≤ order} Aᵏ/k!`, cut off at `order`; per the error-handling
policy an `order < 1` call is rejected rather than producing undefined
output. -/
def MatExp (A : Matrix (Fin 4) (Fin 4) ℚ) (order : Int) :
    Except String (Matrix (Fin 4) (Fin 4) ℚ) :=
  if order < 1 then Except.error "MatExp - order must be at least 1"
  else Except.ok (((List.range (order.toNat + 1)).map fun k =>
    ((k.factorial : ℚ))⁻¹ • A ^ k).sum)

/-- Modelled from the spec: the two-sample `Utils::TransformImu` overload
(only its declaration is among the sampled sources).  It rigidly transforms
the current inertial reading from frame A to frame B given `p_ab` and
`q_ab`, correcting the linear acceleration for the angular acceleration
estimated by the finite difference `(ω_now − ω_prev)/dt` together with the
centripetal lever-arm term; per the error-handling policy a `dt = 0` call
is rejected instead of dividing by zero. -/
def TransformImu (prev now : IMUMeasurementType) (dt : ℚ) (p_ab : Fin 3 → ℚ)
    (q_ab : QuatQ) : Except String IMUMeasurementType :=
  if dt = 0 then Except.error "TransformImu - dt must be non-zero"
  else
    let q_ba := q_ab.conj
    let omega_a := now.angular_velocity_
    let omega_dot := fun i => (now.angular_velocity_ i - prev.angular_velocity_ i) / dt
    Except.ok
      { angular_velocity_ := q_ba.rotate omega_a
        linear_acceleration_ := q_ba.rotate fun i =>
          now.linear_acceleration_ i + crossProduct omega_dot p_ab i
            + crossProduct omega_a (crossProduct omega_a p_ab) i }

/-- C4: the three degenerate calls are rejected with an error result rather
than silently producing undefined numeric output: `quaternionAverage` on an
empty list, `MatExp` with `order < 1`, and the two-sample `TransformImu`
with `dt = 0`. -/
theorem degenerate_calls_rejected :
    (∃ msg, quaternionAverage [] = Except.error msg)
    ∧ (∀ (A : Matrix (Fin 4) (Fin 4) ℚ) (order : Int), order < 1 →
        ∃ msg, MatExp A order = Except.error msg)
    ∧ (∀ (prev now : IMUMeasurementType) (p_ab : Fin 3 → ℚ) (q_ab : QuatQ),
        ∃ msg, TransformImu prev now 0 p_ab q_ab = Except.error msg) := by
  refine ⟨⟨_, rfl⟩, ?_, ?_⟩
  · intro A order h
    exact ⟨_, by rw [MatExp, if_pos h]⟩
  · intro prev now p_ab q_ab
    exact ⟨_, by rw [TransformImu, if_pos rfl]⟩

/-- C4 witness: the rejections at concrete inputs. -/
theorem degenerate_calls_rejected_witness :
    (∃ msg, MatExp 0 0 = Except.error msg)
    ∧ (∃ msg, TransformImu ⟨![0, 0, 0], ![0, 0, 0]⟩ ⟨![0, 0, 0], ![0, 0, 0]⟩ 0 ![0, 0, 0]
        ⟨1, 0, 0, 0⟩ = Except.error msg) :=
  ⟨degenerate_calls_rejected.2.1 0 0 (by norm_num),
    degenerate_calls_rejected.2.2 ⟨![0, 0, 0], ![0, 0, 0]⟩ ⟨![0, 0, 0], ![0, 0, 0]⟩
      ![0, 0, 0] ⟨1, 0, 0, 0⟩⟩

end Mars
